import Mathlib

/-!
Verification development for the KooKooha sociometric analytics engine
(`app/services/analytics_service.py`).  The Python functions are shallowly
embedded as Lean definitions: Python floats are modelled by exact rationals
(`ℚ`) except for the networkx eigenvector power iteration, which is modelled
over `ℝ` because it normalises by a Euclidean norm; Python `dict`s are
modelled by insertion-ordered association lists with the same
update-in-place-or-append semantics; a Python exception is modelled by an
`Option`/`none` result.
-/

attribute [local semireducible] Rat.add Rat.mul Rat.inv Rat.sub

namespace Kookooha

/-- A respondent identifier as it occurs in a JSON answer: either an integer
or a string.  Python's `str()` is applied before any comparison. -/
inductive JsonId
  | asInt (n : Int)
  | asStr (s : String)
deriving DecidableEq

/-- Python `str()` applied to an identifier. -/
def JsonId.key : JsonId → String
  | .asInt n => toString n
  | .asStr s => s

/-- One element of a `selections` list: a dict carrying a `user_id` (with an
optional numeric `weight`), or any other value, which the source skips. -/
inductive SelItem
  | withId (user_id : JsonId) (weight : Option ℚ)
  | noId
deriving DecidableEq

/-- One element of a list-form answer: an `int`/`str` identifier, or any
other value, which the source skips. -/
inductive ListItem
  | ident (v : JsonId)
  | nonId
deriving DecidableEq

/-- An answer value, as discriminated by `_analyze_sociometric_connections`:
a dict with a `selections` list, a dict whose `selections` is not a list,
a plain list, or any other shape (scalar rating, free text, ...). -/
inductive Answer
  | selections (items : List SelItem)
  | selectionsNotList
  | idList (items : List ListItem)
  | otherAnswer
deriving DecidableEq

/-- A survey response: optional respondent id and the ordered
`question_id -> answer` mapping. -/
structure Response where
  respondent_id : Option Int
  answers : List (String × Answer)
deriving DecidableEq

/-- Unordered pair key, stored sorted as in `tuple(sorted([a, b]))`. -/
abbrev Pair := String × String

/-- Association list modelling a Python `dict` keyed by `α`. -/
abbrev AList (α β : Type) := List (α × β)

/-- Python `d.get(k)` / `d[k]`: first (unique) binding of `k`. -/
def lookupKey {α β : Type} [DecidableEq α] : AList α β → α → Option β
  | [], _ => none
  | (k0, v) :: t, k => if k0 = k then some v else lookupKey t k

/-- The key list of an association list (dict key view). -/
def keysOf {α β : Type} (m : AList α β) : List α := m.map (·.1)

/-- Python `d[k] = d.get(k, 0) + w`: update the existing binding in place,
else append a new binding at the end (dict insertion order). -/
def addW {α : Type} [DecidableEq α] : AList α ℚ → α → ℚ → AList α ℚ
  | [], k, w => [(k, w)]
  | (k0, v) :: t, k, w => if k0 = k then (k0, v + w) :: t else (k0, v) :: addW t k w

/-- Python `d[k] = v`: overwrite in place, else append. -/
def assignKey {α β : Type} [DecidableEq α] : AList α β → α → β → AList α β
  | [], k, v => [(k, v)]
  | (k0, v0) :: t, k, v => if k0 = k then (k0, v) :: t else (k0, v0) :: assignKey t k v

/-- Code-point comparison of characters, as Python compares `str`. -/
def charLtB (c d : Char) : Bool := Nat.blt c.toNat d.toNat

/-- Lexicographic code-point comparison on character lists. -/
def strLtAux : List Char → List Char → Bool
  | [], [] => false
  | [], _ :: _ => true
  | _ :: _, [] => false
  | c :: cs, d :: ds =>
      if charLtB c d then true else if charLtB d c then false else strLtAux cs ds

/-- Python's `<` on strings: lexicographic by code point. -/
def strLt (a b : String) : Bool := strLtAux a.data b.data

/-- Python `tuple(sorted([a, b]))` on two strings. -/
def sortPair (a b : String) : Pair := if strLt a b then (a, b) else (b, a)

/-- Edge-candidate contribution of one selections item
(`_analyze_sociometric_connections`, structured branch): declared weight,
defaulting to 1.0, skipping self-nominations and items without `user_id`. -/
def SelItem.contrib (rid : String) : SelItem → List (Pair × ℚ)
  | .withId uid w =>
      if uid.key = rid then [] else [(sortPair rid uid.key, w.getD 1)]
  | .noId => []

/-- Edge-candidate contribution of one list-form item (fixed weight 0.5),
skipping self-nominations and non-identifier items. -/
def ListItem.contrib (rid : String) : ListItem → List (Pair × ℚ)
  | .ident uid =>
      if uid.key = rid then [] else [(sortPair rid uid.key, 1/2)]
  | .nonId => []

/-- Edge candidates produced by one answer. -/
def contribsOfAnswer (rid : String) : Answer → List (Pair × ℚ)
  | .selections items => items.flatMap (SelItem.contrib rid)
  | .selectionsNotList => []
  | .idList items => items.flatMap (ListItem.contrib rid)
  | .otherAnswer => []

/-- Edge candidates produced by one response (responses without a
`respondent_id` are skipped). -/
def contribsOfResponse (r : Response) : List (Pair × ℚ) :=
  match r.respondent_id with
  | none => []
  | some rid => r.answers.flatMap (fun qa => contribsOfAnswer (toString rid) qa.2)

/-- All edge candidates of a response list, in processing order. -/
def allContribs (rs : List Response) : List (Pair × ℚ) :=
  rs.flatMap contribsOfResponse

/-- The raw accumulated connection dict of
`_analyze_sociometric_connections` before normalization: the nested loops
apply `connections[key] = connections.get(key, 0) + weight` for each
candidate in order. -/
def rawConnections (rs : List Response) : AList Pair ℚ :=
  (allContribs rs).foldl (fun m p => addW m p.1 p.2) []

/-- Python `max(connections.values())` (only used on a non-empty dict). -/
def maxVal : AList Pair ℚ → ℚ
  | [] => 0
  | (_, v) :: t => t.foldl (fun a q => max a q.2) v

/-- Full `_analyze_sociometric_connections`: accumulate, then normalize by
the maximum raw weight.  `none` models the `ZeroDivisionError` the source
raises when the maximum raw weight is `0.0`. -/
def analyze_sociometric_connections (rs : List Response) : Option (AList Pair ℚ) :=
  let raw := rawConnections rs
  if raw = [] then some []
  else
    let M := maxVal raw
    if M = 0 then none
    else some (raw.map (fun p => (p.1, p.2 / M)))

/-- Option-level lookup into the normalized connection dict. -/
def optLookup (o : Option (AList Pair ℚ)) (k : Pair) : Option ℚ :=
  o.bind (fun m => lookupKey m k)

/-- A user record as loaded from the database (fields used by the engine). -/
structure User where
  id : Int
  first_name : Option String
  last_name : Option String
  email : String
  department : Option String
  position : Option String
deriving DecidableEq

/-- Python truthiness of an optional string (`None` and `""` are falsy). -/
def optTruthy : Option String → Bool
  | none => false
  | some s => s != ""

/-- Node display name: `f"{first} {last}"` when both are truthy, else email. -/
def displayName (u : User) : String :=
  if optTruthy u.first_name && optTruthy u.last_name then
    u.first_name.getD "" ++ " " ++ u.last_name.getD ""
  else u.email

/-- Python `round(x, k)` modelled on exact rationals (round half away from
even differs from CPython only at exact decimal ties, which never arise in
the claims below). -/
def roundTo (k : Nat) (x : ℚ) : ℚ := (round (x * (10 ^ k : ℚ)) : ℤ) / (10 ^ k : ℚ)

/-- Influence group thresholds of `generate_network_visualization`
(`centrality > 0.1` / `> 0.05`). -/
def influenceGroup (c : ℚ) : String :=
  if 1/10 < c then "high_influence"
  else if 1/20 < c then "medium_influence"
  else "low_influence"

/-- Link strength label (`weight >= 0.7` / `>= 0.4`). -/
def strengthLabel (w : ℚ) : String :=
  if 7/10 ≤ w then "strong" else if 2/5 ≤ w then "medium" else "weak"

/-- Output node record of `generate_network_visualization`. -/
structure NodeOut where
  id : String
  name : String
  group : String
  department : Option String
  position : Option String
  centrality_score : ℚ
  influence_score : ℚ
deriving DecidableEq

/-- Output link record of `generate_network_visualization`. -/
structure LinkOut where
  source : String
  target : String
  weight : ℚ
  strength : String
deriving DecidableEq

/-- Network metadata: the early-return shape carrying only a message, or the
full shape of the non-empty branch. -/
inductive Metadata
  | message (msg : String)
  | full (total_nodes total_connections : Nat) (network_density avg_clustering : ℚ)
      (connected_components : Nat)
deriving DecidableEq

/-- Python `metadata.get("network_density", 0)`. -/
def Metadata.densityD : Metadata → ℚ
  | .message _ => 0
  | .full _ _ d _ _ => d

/-- Python `metadata.get("avg_clustering", 0)`. -/
def Metadata.clusteringD : Metadata → ℚ
  | .message _ => 0
  | .full _ _ _ c _ => c

/-- Python `metadata.get("connected_components", 1)`. -/
def Metadata.componentsD : Metadata → Nat
  | .message _ => 1
  | .full _ _ _ _ k => k

/-- Result shape of `generate_network_visualization`. -/
structure NetworkVis where
  nodes : List NodeOut
  links : List LinkOut
  metadata : Metadata
deriving DecidableEq

/-- The networkx metric primitives the pipeline calls, abstracted as an
external collaborator: each field receives the node-id list and the weighted
edge list of the constructed graph.  (`eigenvector_centrality` below pins
down the actual networkx behaviour on degenerate graphs.) -/
structure GraphLib where
  betweenness : List String → List (Pair × ℚ) → String → ℚ
  eigenvector : List String → List (Pair × ℚ) → String → ℚ
  density : List String → List (Pair × ℚ) → ℚ
  avg_clustering : List String → List (Pair × ℚ) → ℚ
  n_components : List String → List (Pair × ℚ) → Nat

/-- Embedding of `generate_network_visualization` (after the survey-type and
response-loading steps).  `none` models a raised exception: either the
`ZeroDivisionError` of normalization, or the `KeyError` raised in the node
loop when an edge endpoint is not a loaded user (networkx auto-adds such a
node without a `name` attribute). -/
def generate_network_visualization (lib : GraphLib) (users : List User)
    (responses : List Response) (min_connection_strength : ℚ) : Option NetworkVis :=
  if responses = [] then
    some ⟨[], [], .message "No responses available"⟩
  else
    match analyze_sociometric_connections responses with
    | none => none
    | some conns =>
        let nodeIds := users.map (fun u => toString u.id)
        let edges := conns.filter (fun p => min_connection_strength ≤ p.2)
        if edges.any (fun e => !(nodeIds.contains e.1.1 && nodeIds.contains e.1.2)) then
          none
        else
          let nodes := users.map (fun u =>
            let c := lib.betweenness nodeIds edges (toString u.id)
            { id := toString u.id, name := displayName u,
              group := influenceGroup c,
              department := u.department, position := u.position,
              centrality_score := roundTo 3 c,
              influence_score := roundTo 3 (lib.eigenvector nodeIds edges (toString u.id)) })
          let links := edges.map (fun e =>
            { source := e.1.1, target := e.1.2, weight := roundTo 3 e.2,
              strength := strengthLabel e.2 })
          some ⟨nodes, links,
            .full nodes.length links.length (roundTo 3 (lib.density nodeIds edges))
              (roundTo 3 (lib.avg_clustering nodeIds edges)) (lib.n_components nodeIds edges)⟩

/-- Embedding of `_calculate_team_cohesion`.  (With zero connected
components the source would raise `ZeroDivisionError`; that metadata shape
is unreachable because the caller returns early on an empty node set.) -/
def calculate_team_cohesion (metadata : Metadata) : ℚ :=
  min (metadata.densityD * 50 + metadata.clusteringD * 30 + 20 / (metadata.componentsD : ℚ)) 100

/-- Embedding of `_analyze_communication_patterns`. -/
def analyze_communication_patterns (nv : NetworkVis) : ℚ :=
  if nv.nodes = [] then 0
  else if nv.links = [] then 0
  else
    let weights := nv.links.map (·.weight)
    let avg := weights.sum / (weights.length : ℚ)
    let strong := (nv.links.filter (fun l => l.strength = "strong")).length
    min (avg * 60 + ((strong : ℚ) / (nv.links.length : ℚ)) * 40) 100

/-- Embedding of `_calculate_collaboration_index`. -/
def calculate_collaboration_index (nv : NetworkVis) : ℚ :=
  if nv.nodes = [] ∨ nv.links = [] then 0
  else
    let node_departments : AList String (Option String) :=
      nv.nodes.map (fun n => (n.id, n.department))
    let cross := (nv.links.filter (fun l =>
      match (lookupKey node_departments l.source).join,
            (lookupKey node_departments l.target).join with
      | some s, some t => optTruthy (some s) && optTruthy (some t) && s != t
      | _, _ => false)).length
    ((cross : ℚ) / (nv.links.length : ℚ)) * 100

/-- The `leadership_scores` dict of `_identify_leadership_influence`: keyed
by display NAME, a later node with the same name overwrites the earlier
score while keeping the original dict position. -/
def leadershipScores (nodes : List NodeOut) : AList String ℚ :=
  nodes.foldl (fun m n =>
    assignKey m n.name (roundTo 3 (n.centrality_score * (3/5) + n.influence_score * (2/5)))) []

/-- Stable insertion step for a descending sort (Python's stable
`sorted(..., reverse=True)`): a new element goes before the first element
with a key less than or equal to its own. -/
def insertDescBy {α : Type} (f : α → ℚ) (a : α) : List α → List α
  | [] => [a]
  | b :: t => if f b ≤ f a then a :: b :: t else b :: insertDescBy f a t

/-- Stable descending sort by a rational key. -/
def sortDescBy {α : Type} (f : α → ℚ) (l : List α) : List α := l.foldr (insertDescBy f) []

/-- Embedding of `_identify_leadership_influence`: top five entries of the
name-keyed score dict, sorted by score descending. -/
def identify_leadership_influence (nodes : List NodeOut) : AList String ℚ :=
  (sortDescBy (·.2) (leadershipScores nodes)).take 5

/-- Python `connection_counts[k] += 1`: `none` models the `KeyError` raised
when an endpoint is not an initialized node id. -/
def bumpCount (m : AList String Nat) (k : String) : Option (AList String Nat) :=
  match m with
  | [] => none
  | (k0, v) :: t =>
      if k0 = k then some ((k0, v + 1) :: t)
      else (bumpCount t k).map (fun t2 => (k0, v) :: t2)

/-- The endpoint-counting loop of `_identify_isolated_members`. -/
def countLinks (m : AList String Nat) : List LinkOut → Option (AList String Nat)
  | [] => some m
  | l :: ls =>
      match bumpCount m l.source with
      | none => none
      | some m1 =>
          match bumpCount m1 l.target with
          | none => none
          | some m2 => countLinks m2 ls

/-- Embedding of `_identify_isolated_members`: names of nodes whose endpoint
count is below two. -/
def identify_isolated_members (nodes : List NodeOut) (links : List LinkOut) :
    Option (List String) :=
  match countLinks (nodes.map (fun n => (n.id, 0))) links with
  | none => none
  | some counts =>
      some ((nodes.filter (fun n => (lookupKey counts n.id).getD 0 < 2)).map (·.name))

/-- Embedding of `_identify_key_connectors`: nodes with centrality above
0.05 in descending centrality order, top five names. -/
def identify_key_connectors (nodes : List NodeOut) : List String :=
  (((sortDescBy (·.centrality_score) nodes).filter
      (fun n => 1/20 < n.centrality_score)).map (·.name)).take 5

/-- The department grouping loop of `_analyze_department_connectivity`
(`node.get("department", "Unassigned")` never falls back to `"Unassigned"`
because the key is always present, possibly holding `None`). -/
def departmentGroups (nodes : List NodeOut) : AList (Option String) (List String) :=
  nodes.foldl (fun m n =>
    match lookupKey m n.department with
    | none => assignKey m n.department [n.id]
    | some ids => assignKey m n.department (ids ++ [n.id])) []

/-- Embedding of `_analyze_department_connectivity`. -/
def analyze_department_connectivity (nodes : List NodeOut) (links : List LinkOut) :
    AList (Option String) ℚ :=
  (departmentGroups nodes).map (fun p =>
    let ids := p.2
    if ids.length < 2 then (p.1, 0)
    else
      let possible : Nat := ids.length * (ids.length - 1) / 2
      let internal := (links.filter (fun l =>
        ids.contains l.source && ids.contains l.target)).length
      (p.1, roundTo 2 (if 0 < possible then ((internal : ℚ) / (possible : ℚ)) * 100 else 0)))

/-- Embedding of `_generate_team_recommendations`. -/
def generate_team_recommendations (cohesion communication : ℚ)
    (isolated : List String) : List String :=
  (if cohesion < 50 then ["Consider team building activities to improve overall cohesion"]
   else []) ++
  (if communication < 60 then ["Implement regular communication channels and feedback loops"]
   else []) ++
  (if 0 < isolated.length then
    ["Focus on integrating isolated team members: " ++ String.intercalate ", " (isolated.take 3)]
   else []) ++
  (if 80 < cohesion then ["Strong team cohesion detected - maintain current collaboration practices"]
   else []) ++
  ["Schedule regular check-ins to monitor team dynamics"]

/-- The team-dynamics report assembled by `analyze_team_dynamics`. -/
structure TeamReport where
  team_cohesion_score : ℚ
  communication_effectiveness : ℚ
  collaboration_index : ℚ
  leadership_influence : AList String ℚ
  department_connectivity : AList (Option String) ℚ
  isolated_members : List String
  key_connectors : List String
  recommendations : List String
deriving DecidableEq

/-- The two possible returned dict shapes of `analyze_team_dynamics`: the
`{"error": ...}` dict, or a full report. -/
inductive TeamDynamicsResult
  | errorResult (msg : String)
  | report (r : TeamReport)
deriving DecidableEq

/-- Whether an `analyze_team_dynamics` result is a full report. -/
def TeamDynamicsResult.isReport : TeamDynamicsResult → Bool
  | .errorResult _ => false
  | .report _ => true

/-- Embedding of `analyze_team_dynamics` (after survey lookup); it calls the
network visualization with the default `min_connection_strength = 0.1` and
returns the error dict when the node list is empty. -/
def analyze_team_dynamics (lib : GraphLib) (users : List User)
    (responses : List Response) : Option TeamDynamicsResult :=
  match generate_network_visualization lib users responses (1/10) with
  | none => none
  | some nv =>
      if nv.nodes = [] then some (.errorResult "No data available for analysis")
      else
        let cohesion := calculate_team_cohesion nv.metadata
        let communication := analyze_communication_patterns nv
        match identify_isolated_members nv.nodes nv.links with
        | none => none
        | some isolated =>
            some (.report
              { team_cohesion_score := roundTo 2 cohesion,
                communication_effectiveness := roundTo 2 communication,
                collaboration_index := roundTo 2 (calculate_collaboration_index nv),
                leadership_influence := identify_leadership_influence nv.nodes,
                department_connectivity := analyze_department_connectivity nv.nodes nv.links,
                isolated_members := isolated,
                key_connectors := identify_key_connectors nv.nodes,
                recommendations := generate_team_recommendations cohesion communication isolated })

/-- The metric/score summary handed to the insight generator (the values the
fallback generator reads out of the metrics and team-dynamics dicts with
`.get(..., 0)`). -/
structure AnalysisData where
  response_rate : ℚ
  team_cohesion_score : ℚ
  communication_effectiveness : ℚ
deriving DecidableEq

/-- An insight report: the four rule-produced lists, plus the timestamp and
source markers set by the fallback path. -/
structure Insights where
  insights : List String
  recommendations : List String
  risks : List String
  positives : List String
  generated_at : Option String
  source : Option String
deriving DecidableEq

/-- Embedding of `_generate_fallback_insights` (the `datetime.utcnow()`
timestamp is passed in as `now`). -/
def generate_fallback_insights (data : AnalysisData) (now : String) : Insights :=
  let rr := data.response_rate
  let cohesion := data.team_cohesion_score
  let communication := data.communication_effectiveness
  { insights := ["Survey data reveals key patterns in team dynamics",
                 "Network analysis shows collaboration opportunities"],
    recommendations :=
      (if rr < 40 ∧ ¬ 70 ≤ rr then ["Investigate barriers to survey participation"] else []) ++
      (if cohesion < 50 ∧ ¬ 70 ≤ cohesion then ["Implement team building initiatives"] else []) ++
      (if communication < 60 then ["Establish regular communication channels"] else []),
    risks :=
      (if rr < 40 ∧ ¬ 70 ≤ rr then ["Low response rate may indicate disengagement"] else []) ++
      (if cohesion < 50 ∧ ¬ 70 ≤ cohesion then ["Low team cohesion may affect collaboration"]
       else []) ++
      (if communication < 60 then ["Communication effectiveness could be improved"] else []),
    positives :=
      (if 70 ≤ rr then ["High response rate indicates strong team engagement"] else []) ++
      (if 70 ≤ cohesion then ["Strong team cohesion detected"] else []),
    generated_at := some now,
    source := some "automated_analysis" }

/-- Embedding of `generate_ai_insights` around its external effects: the
cache read (`cached`, valid only when `force_regenerate` is false), the
OpenAI call outcome (`enrichment`), and the snapshot write (second
component of the result, performed only on enrichment success; the
`except Exception` branch falls back to the deterministic insights). -/
def generate_ai_insights (force_regenerate : Bool) (cached : Option Insights)
    (data : AnalysisData) (enrichment : Except String Insights) (now : String) :
    Insights × Option Insights :=
  match force_regenerate, cached with
  | false, some c => (c, none)
  | _, _ =>
      match enrichment with
      | .ok ins => (ins, some ins)
      | .error _ => (generate_fallback_insights data now, none)

/-- Unweighted neighbour list of an undirected edge list (the pipeline calls
`nx.eigenvector_centrality` without a `weight` argument, so every edge
counts with weight one). -/
def adjOfEdges (edges : List Pair) (v : String) : List String :=
  ((edges.filter (fun e => e.1 = v)).map (·.2)) ++ ((edges.filter (fun e => e.2 = v)).map (·.1))

/-- Euclidean norm (`math.hypot`) of a list of reals. -/
noncomputable def l2norm (xs : List ℝ) : ℝ := Real.sqrt ((xs.map (fun t => t * t)).sum)

/-- One networkx power-iteration step: starting from a copy of `xlast`,
every node adds `xlast[n]` to each of its neighbours, and the resulting
vector is scaled by its Euclidean norm (`math.hypot(*x.values()) or 1`:
by one when the norm is zero). -/
noncomputable def evNext (nodes : List String) (adj : String → List String)
    (x : String → ℝ) : String → ℝ := fun v =>
  let x1 : String → ℝ := fun w =>
    x w + ((nodes.filter (fun u => (adj u).contains w)).map x).sum
  let n0 := l2norm (nodes.map x1)
  let norm := if n0 = 0 then 1 else n0
  x1 v / norm

/-- The networkx power-iteration loop with fuel: iterate `evNext` until the
l1 distance to the previous vector drops below `nnodes * 1e-6`.  `none`
models the `PowerIterationFailedConvergence` raised when the fuel runs
out. -/
noncomputable def evIter (nodes : List String) (adj : String → List String) :
    Nat → (String → ℝ) → Option (List (String × ℝ))
  | 0, _ => none
  | fuel + 1, x =>
      if ((nodes.map (fun v => |evNext nodes adj x v - x v|)).sum <
          (nodes.length : ℝ) * (1 / 1000000)) then
        some (nodes.map (fun v => (v, evNext nodes adj x v)))
      else evIter nodes adj fuel (evNext nodes adj x)

/-- Model of `networkx.eigenvector_centrality(G, max_iter)`: `none` models a
raised exception (`NetworkXPointlessConcept` on the empty graph, or failed
convergence); otherwise the power iteration starts from the uniform vector
`1/n`. -/
noncomputable def eigenvector_centrality (nodes : List String) (adj : String → List String)
    (max_iter : Nat) : Option (List (String × ℝ)) :=
  if nodes = [] then none
  else evIter nodes adj max_iter (fun _ => 1 / (nodes.length : ℝ))

/-! Concrete fixtures used by witnesses and counterexamples. -/

/-- Respondent 1 nominates users 2 and 3 in list form (spec scenario "A"). -/
def respA : Response := ⟨some 1, [("q1", .idList [.ident (.asInt 2), .ident (.asInt 3)])]⟩

/-- Respondent 2 nominates user 1 via a structured selection of weight 1.0
(spec scenario "B"). -/
def respB : Response := ⟨some 2, [("q1", .selections [.withId (.asInt 1) (some 1)])]⟩

/-- Respondent 1 declares negative selection weights. -/
def respNeg : Response :=
  ⟨some 1, [("q", .selections [.withId (.asInt 2) (some (-2)), .withId (.asInt 3) (some (-1))])]⟩

/-- A single survey participant. -/
def uSingle : User := ⟨1, some "Solo", some "Member", "solo@example.com", none, none⟩

/-- A response carrying only a scalar rating answer: no nominations. -/
def respScalar : Response := ⟨some 1, [("q1", .otherAnswer)]⟩

/-- A concrete metric oracle (its values are irrelevant to the statements it
appears in). -/
def trivLib : GraphLib := ⟨fun _ _ _ => 0, fun _ _ _ => 0, fun _ _ => 0, fun _ _ => 0, fun _ _ => 0⟩

/-- Two distinct nodes sharing the display name "N", and a third node. -/
def nIso1 : NodeOut := ⟨"1", "N", "low_influence", none, none, 0, 0⟩

/-- Second node with the duplicate display name "N". -/
def nIso2 : NodeOut := ⟨"2", "N", "low_influence", none, none, 0, 0⟩

/-- Third node, display name "M". -/
def nIso3 : NodeOut := ⟨"3", "M", "low_influence", none, none, 0, 0⟩

/-- Link between nodes 1 and 2. -/
def lnk12 : LinkOut := ⟨"1", "2", 1, "strong"⟩

/-- Link between nodes 2 and 3. -/
def lnk23 : LinkOut := ⟨"2", "3", 1, "strong"⟩

/-- Leadership fixture: name "N", combined score 1/2. -/
def nLead1 : NodeOut := ⟨"1", "N", "low_influence", none, none, 1/2, 1/2⟩

/-- Leadership fixture: same name "N" as `nLead1`, combined score 1/4. -/
def nLead2 : NodeOut := ⟨"2", "N", "low_influence", none, none, 1/4, 1/4⟩

/-- Analysis-data fixture for the insight fallback. -/
def dataW : AnalysisData := ⟨50, 60, 70⟩

/-- Degree of a node id in a link list: number of edge endpoints equal to it
(the quantity the isolated-member rule is specified against). -/
def endpointDegree (links : List LinkOut) (id : String) : Nat :=
  (links.filter (fun l => l.source = id)).length + (links.filter (fun l => l.target = id)).length

/-- Sum of the contribution weights carried by a given unordered pair. -/
def wsum (l : List (Pair × ℚ)) (k : Pair) : ℚ :=
  ((l.filter (fun q => q.1 = k)).map (·.2)).sum

example : sortPair "2" "1" = ("1", "2") := by decide

example :
    rawConnections [respA, respB] = [(("1", "2"), 3/2), (("1", "3"), 1/2)] := by decide

/-! Association-list lemmas. -/

theorem lookupKey_assignKey {α β : Type} [DecidableEq α] (m : AList α β) (k k2 : α) (v : β) :
    lookupKey (assignKey m k v) k2 = if k = k2 then some v else lookupKey m k2 := by
  induction m with
  | nil =>
      by_cases h : k = k2 <;> simp [assignKey, lookupKey, h]
  | cons p t ih =>
      obtain ⟨k0, v0⟩ := p
      by_cases h1 : k0 = k
      · subst h1
        by_cases h2 : k0 = k2 <;> simp [assignKey, lookupKey, h2]
      · by_cases h2 : k0 = k2
        · have hk : ¬ k = k2 := by rw [← h2]; exact fun hh => h1 hh.symm
          have hk2 : ¬ k2 = k := fun hh => hk hh.symm
          simp [assignKey, lookupKey, h1, h2, hk, hk2]
        · simp [assignKey, lookupKey, h1, h2, ih]

theorem lookupKey_addW {α : Type} [DecidableEq α] (m : AList α ℚ) (k k2 : α) (w : ℚ) :
    lookupKey (addW m k w) k2 =
      if k = k2 then some ((lookupKey m k).getD 0 + w) else lookupKey m k2 := by
  induction m with
  | nil =>
      by_cases h : k = k2 <;> simp [addW, lookupKey, h]
  | cons p t ih =>
      obtain ⟨k0, v0⟩ := p
      by_cases h1 : k0 = k
      · subst h1
        by_cases h2 : k0 = k2 <;> simp [addW, lookupKey, h2]
      · by_cases h2 : k0 = k2
        · have hk : ¬ k = k2 := by rw [← h2]; exact fun hh => h1 hh.symm
          have hk2 : ¬ k2 = k := fun hh => hk hh.symm
          simp [addW, lookupKey, h1, h2, hk, hk2]
        · simp [addW, lookupKey, h1, h2, ih]

theorem lookupKey_map_snd {α β γ : Type} [DecidableEq α] (m : AList α β) (f : β → γ) (k : α) :
    lookupKey (m.map (fun p => (p.1, f p.2))) k = (lookupKey m k).map f := by
  induction m with
  | nil => simp [lookupKey]
  | cons p t ih =>
      obtain ⟨k0, v0⟩ := p
      by_cases h : k0 = k <;> simp [lookupKey, h, ih]

/-! The score dict of `_identify_leadership_influence` keyed by name. -/

theorem lookupKey_foldl_assign (nodes : List NodeOut) (m0 : AList String ℚ)
    (f : NodeOut → ℚ) (name : String) :
    lookupKey (nodes.foldl (fun m n => assignKey m n.name (f n)) m0) name =
      match nodes.reverse.find? (fun n => n.name = name) with
      | some n => some (f n)
      | none => lookupKey m0 name := by
  induction nodes generalizing m0 with
  | nil => simp
  | cons n t ih =>
      simp only [List.foldl_cons, ih, List.reverse_cons, List.find?_append]
      cases hf : t.reverse.find? (fun n2 => n2.name = name) with
      | some n2 => simp [hf]
      | none =>
          simp only [hf, Option.none_orElse]
          by_cases h : n.name = name
          · simp [List.find?, h, lookupKey_assignKey]
          · simp [List.find?, h, lookupKey_assignKey]

theorem leadershipScores_lookup (nodes : List NodeOut) (name : String) :
    lookupKey (leadershipScores nodes) name =
      (nodes.reverse.find? (fun n => n.name = name)).map
        (fun n => roundTo 3 (n.centrality_score * (3/5) + n.influence_score * (2/5))) := by
  unfold leadershipScores
  rw [lookupKey_foldl_assign]
  cases nodes.reverse.find? (fun n => n.name = name) <;> simp [lookupKey]

/-! Claim theorems. -/

/-- C2 (corrected, counterexample): with zero responses `analyze_team_dynamics`
returns the `{"error": "No data available for analysis"}` dict — an error
value, not a well-formed empty report. -/
theorem C2_counterexample :
    analyze_team_dynamics trivLib [] [] = some (.errorResult "No data available for analysis")
    ∧ TeamDynamicsResult.isReport (.errorResult "No data available for analysis") = false := by
  decide

/-- C2 (amended): for every metric oracle and user list, a survey with zero
responses makes `analyze_team_dynamics` return, without raising, the fixed
error dict `{"error": "No data available for analysis"}` instead of an
empty report. -/
theorem C2_empty_responses_yield_error_dict (lib : GraphLib) (users : List User) :
    analyze_team_dynamics lib users [] =
      some (.errorResult "No data available for analysis") := rfl

/-- C3: whenever the enrichment call fails (and no fresh cached snapshot
short-circuits the computation), `generate_ai_insights` returns exactly the
deterministic `_generate_fallback_insights` report on the same computed
data, writes no cache snapshot, and propagates no exception. -/
theorem C3_enrichment_failure_falls_back (force : Bool) (cached : Option Insights)
    (data : AnalysisData) (err : String) (now : String)
    (h : force = true ∨ cached = none) :
    generate_ai_insights force cached data (.error err) now =
      (generate_fallback_insights data now, none) := by
  rcases h with h | h
  · subst h; rfl
  · subst h; cases force <;> rfl

/-- Witness for C3 at a concrete failing enrichment call. -/
theorem C3_witness :
    (true = true ∨ (none : Option Insights) = none)
    ∧ generate_ai_insights true none dataW (.error "timeout") "2026-01-01" =
        (generate_fallback_insights dataW "2026-01-01", none) :=
  ⟨Or.inl rfl, C3_enrichment_failure_falls_back true none dataW "timeout" "2026-01-01"
    (Or.inl rfl)⟩

/-- C7: in the spec scenario (respondent 1 nominates 2 and 3 in list form,
respondent 2 nominates 1 via a structured selection of weight 1.0) the raw
weights are (1,2) = 1.5 and (1,3) = 0.5, normalized to 1 and 1/3; in
general a structured selection contributes its declared weight (1.0 when
absent) and a list-form nomination contributes a fixed 0.5. -/
theorem C7_scenario_and_contribution_weights :
    rawConnections [respA, respB] = [(("1", "2"), 3/2), (("1", "3"), 1/2)]
    ∧ analyze_sociometric_connections [respA, respB] =
        some [(("1", "2"), 1), (("1", "3"), 1/3)]
    ∧ (∀ (rid : String) (uid : JsonId) (w : ℚ),
        contribsOfAnswer rid (.selections [.withId uid (some w)]) =
          if uid.key = rid then [] else [(sortPair rid uid.key, w)])
    ∧ (∀ (rid : String) (uid : JsonId),
        contribsOfAnswer rid (.selections [.withId uid none]) =
          if uid.key = rid then [] else [(sortPair rid uid.key, 1)])
    ∧ (∀ (rid : String) (uid : JsonId),
        contribsOfAnswer rid (.idList [.ident uid]) =
          if uid.key = rid then [] else [(sortPair rid uid.key, 1/2)]) := by
  refine ⟨by decide, by decide, ?_, ?_, ?_⟩ <;> intros <;>
    simp only [contribsOfAnswer, SelItem.contrib, ListItem.contrib, List.flatMap_cons,
      List.flatMap_nil, Option.getD_some, Option.getD_none] <;> split <;> simp

/-- C8: on metadata with nonnegative density and clustering and at least one
connected component, `_calculate_team_cohesion` computes exactly
`min(density*50 + avg_clustering*30 + 20/components, 100)`, and the result
always lies in [0, 100]. -/
theorem C8_cohesion_formula_and_bounds (nn ne : Nat) (d c : ℚ) (comp : Nat)
    (hd : 0 ≤ d) (hc : 0 ≤ c) (hcomp : 1 ≤ comp) :
    calculate_team_cohesion (.full nn ne d c comp) =
      min (d * 50 + c * 30 + 20 / (comp : ℚ)) 100
    ∧ 0 ≤ calculate_team_cohesion (.full nn ne d c comp)
    ∧ calculate_team_cohesion (.full nn ne d c comp) ≤ 100 := by
  refine ⟨rfl, ?_, min_le_right _ _⟩
  have hcomp2 : (0 : ℚ) < (comp : ℚ) := by
    have : (1 : ℚ) ≤ (comp : ℚ) := by exact_mod_cast hcomp
    linarith
  have h20 : (0 : ℚ) < 20 / (comp : ℚ) := div_pos (by norm_num) hcomp2
  have hbody : (0 : ℚ) ≤ d * 50 + c * 30 + 20 / (comp : ℚ) := by nlinarith
  exact le_min hbody (by norm_num)

/-- Witness for C8 at concrete metadata. -/
theorem C8_witness :
    ((0 : ℚ) ≤ 1/2 ∧ (0 : ℚ) ≤ 1/3 ∧ 1 ≤ 2)
    ∧ (calculate_team_cohesion (.full 4 3 (1/2) (1/3) 2) =
          min ((1/2 : ℚ) * 50 + (1/3) * 30 + 20 / (2 : ℚ)) 100
        ∧ 0 ≤ calculate_team_cohesion (.full 4 3 (1/2) (1/3) 2)
        ∧ calculate_team_cohesion (.full 4 3 (1/2) (1/3) 2) ≤ 100) :=
  ⟨⟨by norm_num, by norm_num, by norm_num⟩,
    C8_cohesion_formula_and_bounds 4 3 (1/2) (1/3) 2 (by norm_num) (by norm_num) (by norm_num)⟩

/-- C10: `_identify_leadership_influence` keys scores by display name — the
score stored under a name is the one of the last-iterated node bearing that
name — so two distinct nodes sharing a name collapse into one entry and the
top-5 mapping can have fewer entries than min(5, number of nodes), as the
concrete two-node instance shows. -/
theorem C10_leadership_keyed_by_display_name :
    (∀ (nodes : List NodeOut) (name : String),
        lookupKey (leadershipScores nodes) name =
          (nodes.reverse.find? (fun n => n.name = name)).map
            (fun n => roundTo 3 (n.centrality_score * (3/5) + n.influence_score * (2/5))))
    ∧ nLead1.name = nLead2.name
    ∧ identify_leadership_influence [nLead1, nLead2] = [("N", 1/4)]
    ∧ (identify_leadership_influence [nLead1, nLead2]).length < min 5 [nLead1, nLead2].length :=
  ⟨leadershipScores_lookup, by decide, by decide, by decide⟩

/-! Key-membership and value lemmas about the accumulation fold. -/

theorem lookupKey_isSome_iff {α β : Type} [DecidableEq α] (m : AList α β) (k : α) :
    (lookupKey m k).isSome ↔ k ∈ keysOf m := by
  induction m with
  | nil => simp [lookupKey, keysOf]
  | cons p t ih =>
      obtain ⟨k0, v0⟩ := p
      by_cases h : k0 = k
      · subst h
        simp [lookupKey, keysOf]
      · have hne : ¬ k = k0 := fun e => h e.symm
        rw [show lookupKey ((k0, v0) :: t) k = lookupKey t k by simp [lookupKey, h]]
        rw [ih]
        simp [keysOf, hne]

theorem mem_keysOf_addW_iff {α : Type} [DecidableEq α] (m : AList α ℚ) (k k2 : α) (w : ℚ) :
    k2 ∈ keysOf (addW m k w) ↔ k2 ∈ keysOf m ∨ k2 = k := by
  induction m with
  | nil => simp [addW, keysOf]
  | cons p t ih =>
      obtain ⟨k0, v0⟩ := p
      by_cases h : k0 = k
      · subst h
        simp [addW, keysOf]
        tauto
      · simp [addW, keysOf, h] at ih ⊢
        tauto

theorem mem_keysOf_foldl_addW_iff (l : List (Pair × ℚ)) (m0 : AList Pair ℚ) (k : Pair) :
    k ∈ keysOf (l.foldl (fun m p => addW m p.1 p.2) m0) ↔ k ∈ keysOf m0 ∨ k ∈ keysOf l := by
  induction l generalizing m0 with
  | nil => simp [keysOf]
  | cons q t ih =>
      rw [List.foldl_cons, ih]
      rw [mem_keysOf_addW_iff]
      simp [keysOf]
      tauto

theorem sortPair_fst_ne_snd {a b : String} (h : a ≠ b) :
    (sortPair a b).1 ≠ (sortPair a b).2 := by
  unfold sortPair
  split
  · exact h
  · exact h.symm

theorem selContrib_key_ne (rid : String) (it : SelItem) (q : Pair × ℚ)
    (h : q ∈ SelItem.contrib rid it) : q.1.1 ≠ q.1.2 := by
  cases it with
  | withId uid w =>
      by_cases hc : uid.key = rid
      · simp [SelItem.contrib, hc] at h
      · simp [SelItem.contrib, hc] at h
        rw [h]
        exact sortPair_fst_ne_snd (fun e => hc e.symm)
  | noId => simp [SelItem.contrib] at h

theorem listContrib_key_ne (rid : String) (it : ListItem) (q : Pair × ℚ)
    (h : q ∈ ListItem.contrib rid it) : q.1.1 ≠ q.1.2 := by
  cases it with
  | ident uid =>
      by_cases hc : uid.key = rid
      · simp [ListItem.contrib, hc] at h
      · simp [ListItem.contrib, hc] at h
        rw [h]
        exact sortPair_fst_ne_snd (fun e => hc e.symm)
  | nonId => simp [ListItem.contrib] at h

theorem allContribs_key_ne (rs : List Response) (q : Pair × ℚ)
    (h : q ∈ allContribs rs) : q.1.1 ≠ q.1.2 := by
  simp only [allContribs, List.mem_flatMap] at h
  obtain ⟨r, _, hr⟩ := h
  unfold contribsOfResponse at hr
  cases hrid : r.respondent_id with
  | none => rw [hrid] at hr; simp at hr
  | some rid =>
      rw [hrid] at hr
      simp only [List.mem_flatMap] at hr
      obtain ⟨qa, _, hqa⟩ := hr
      cases ha : qa.2 with
      | selections items =>
          rw [ha] at hqa
          simp only [contribsOfAnswer, List.mem_flatMap] at hqa
          obtain ⟨it, _, hit⟩ := hqa
          exact selContrib_key_ne _ it q hit
      | selectionsNotList => rw [ha] at hqa; simp [contribsOfAnswer] at hqa
      | idList items =>
          rw [ha] at hqa
          simp only [contribsOfAnswer, List.mem_flatMap] at hqa
          obtain ⟨it, _, hit⟩ := hqa
          exact listContrib_key_ne _ it q hit
      | otherAnswer => rw [ha] at hqa; simp [contribsOfAnswer] at hqa

theorem addW_values_pos {α : Type} [DecidableEq α] (m : AList α ℚ) (k : α) (w : ℚ)
    (h0 : ∀ q ∈ m, 0 < q.2) (hw : 0 < w) : ∀ q ∈ addW m k w, 0 < q.2 := by
  induction m with
  | nil =>
      intro q hq
      simp [addW] at hq
      rw [hq]
      exact hw
  | cons p t ih =>
      obtain ⟨k0, v0⟩ := p
      intro q hq
      by_cases h : k0 = k
      · simp [addW, h] at hq
        rcases hq with hq | hq
        · rw [hq]
          have : (0 : ℚ) < v0 := h0 (k0, v0) (by simp)
          positivity
        · exact h0 q (List.mem_cons_of_mem _ hq)
      · simp only [addW, if_neg h, List.mem_cons] at hq
        rcases hq with hq | hq
        · rw [hq]
          exact h0 (k0, v0) (by simp)
        · exact ih (fun q2 hq2 => h0 q2 (List.mem_cons_of_mem _ hq2)) q hq

theorem foldl_addW_values_pos (l : List (Pair × ℚ)) (m0 : AList Pair ℚ)
    (h0 : ∀ q ∈ m0, 0 < q.2) (hl : ∀ q ∈ l, 0 < q.2) :
    ∀ q ∈ l.foldl (fun m p => addW m p.1 p.2) m0, 0 < q.2 := by
  induction l generalizing m0 with
  | nil => exact h0
  | cons p t ih =>
      rw [List.foldl_cons]
      exact ih (addW m0 p.1 p.2) (addW_values_pos m0 p.1 p.2 h0 (hl p (by simp)))
        (fun q hq => hl q (List.mem_cons_of_mem _ hq))

theorem foldl_max_mem (t : List (Pair × ℚ)) (v : ℚ) :
    t.foldl (fun a q => max a q.2) v = v ∨ t.foldl (fun a q => max a q.2) v ∈ t.map (·.2) := by
  induction t generalizing v with
  | nil => exact Or.inl rfl
  | cons q t ih =>
      rw [List.foldl_cons]
      rcases ih (max v q.2) with h | h
      · rcases max_choice v q.2 with h2 | h2
        · exact Or.inl (by rw [h, h2])
        · refine Or.inr ?_
          rw [h, h2]
          simp
      · exact Or.inr (by simp [h])

theorem le_foldl_max_init (t : List (Pair × ℚ)) (v : ℚ) :
    v ≤ t.foldl (fun a q => max a q.2) v := by
  induction t generalizing v with
  | nil => exact le_refl v
  | cons q t ih => exact le_trans (le_max_left v q.2) (ih (max v q.2))

theorem le_foldl_max_mem (t : List (Pair × ℚ)) (v : ℚ) :
    ∀ x ∈ t.map (·.2), x ≤ t.foldl (fun a q => max a q.2) v := by
  induction t generalizing v with
  | nil => intro x hx; simp at hx
  | cons q t ih =>
      intro x hx
      simp only [List.map_cons, List.mem_cons] at hx
      rcases hx with hx | hx
      · rw [List.foldl_cons, hx]
        exact le_trans (le_max_right v q.2) (le_foldl_max_init t (max v q.2))
      · rw [List.foldl_cons]
        exact ih (max v q.2) x hx

theorem maxVal_spec (m : AList Pair ℚ) (h : m ≠ []) :
    maxVal m ∈ m.map (·.2) ∧ ∀ x ∈ m.map (·.2), x ≤ maxVal m := by
  cases m with
  | nil => exact absurd rfl h
  | cons p t =>
      obtain ⟨k0, v0⟩ := p
      have hm : maxVal ((k0, v0) :: t) = t.foldl (fun a q => max a q.2) v0 := rfl
      constructor
      · rw [hm, List.map_cons]
        rcases foldl_max_mem t v0 with h2 | h2
        · rw [h2]
          exact List.mem_cons_self _ _
        · exact List.mem_cons_of_mem _ h2
      · intro x hx
        rw [List.map_cons, List.mem_cons] at hx
        rw [hm]
        rcases hx with hx | hx
        · rw [hx]
          exact le_foldl_max_init t v0
        · exact le_foldl_max_mem t v0 x hx

/-- C5: no response list, whatever its answers (self-nominations included),
produces a self-loop: every key of the raw and of the normalized connection
dict has distinct endpoints, and so does every link of any emitted
network. -/
theorem C5_no_self_loops (rs : List Response) :
    (∀ p ∈ keysOf (rawConnections rs), p.1 ≠ p.2)
    ∧ (∀ m, analyze_sociometric_connections rs = some m → ∀ p ∈ keysOf m, p.1 ≠ p.2)
    ∧ (∀ (lib : GraphLib) (users : List User) (minS : ℚ) (nv : NetworkVis),
        generate_network_visualization lib users rs minS = some nv →
        ∀ l ∈ nv.links, l.source ≠ l.target) := by
  have part1 : ∀ p ∈ keysOf (rawConnections rs), p.1 ≠ p.2 := by
    intro p hp
    rw [rawConnections, mem_keysOf_foldl_addW_iff] at hp
    rcases hp with hp | hp
    · simp [keysOf] at hp
    · simp only [keysOf, List.mem_map] at hp
      obtain ⟨q, hq, rfl⟩ := hp
      exact allContribs_key_ne rs q hq
  have part2 : ∀ m, analyze_sociometric_connections rs = some m →
      ∀ p ∈ keysOf m, p.1 ≠ p.2 := by
    intro m hm p hp
    unfold analyze_sociometric_connections at hm
    by_cases hraw : rawConnections rs = []
    · rw [if_pos hraw] at hm
      cases hm
      simp [keysOf] at hp
    · rw [if_neg hraw] at hm
      by_cases hM : maxVal (rawConnections rs) = 0
      · rw [if_pos hM] at hm
        cases hm
      · rw [if_neg hM] at hm
        cases hm
        simp only [keysOf, List.map_map] at hp
        simp only [List.mem_map] at hp
        obtain ⟨q, hq, rfl⟩ := hp
        exact part1 q.1 (List.mem_map_of_mem _ hq)
  refine ⟨part1, part2, ?_⟩
  intro lib users minS nv hgen l hl
  unfold generate_network_visualization at hgen
  by_cases hresp : rs = []
  · rw [if_pos hresp] at hgen
    cases hgen
    simp at hl
  · rw [if_neg hresp] at hgen
    cases hconn : analyze_sociometric_connections rs with
    | none => rw [hconn] at hgen; cases hgen
    | some conns =>
        rw [hconn] at hgen
        simp only [] at hgen
        split at hgen
        · cases hgen
        · cases hgen
          simp only [List.mem_map] at hl
          obtain ⟨e, he, rfl⟩ := hl
          have he2 : e ∈ conns := (List.mem_filter.1 he).1
          exact part2 conns hconn e.1 (List.mem_map_of_mem _ he2)

/-- Witness for C5 at a concrete nomination. -/
theorem C5_witness :
    ("1", "2") ∈ keysOf (rawConnections [respA]) ∧ ("1", "2").1 ≠ ("1", "2").2 :=
  ⟨by decide, (C5_no_self_loops [respA]).1 ("1", "2") (by decide)⟩

/-- C4 (corrected, counterexample): with negative declared selection weights
the normalized weights can leave [0, 1] — here respondent 1 weights user 2
by -2 and user 3 by -1, the maximum raw weight is -1, and the normalized
weight of (1,2) is 2. -/
theorem C4_counterexample :
    optLookup (analyze_sociometric_connections [respNeg]) ("1", "2") = some 2
    ∧ ¬ ((2 : ℚ) ≤ 1) := by decide

/-- C4 (amended): provided every contribution weight is positive (declared
selection weights positive; defaults 1.0 and 0.5 are positive anyway), a
non-empty accumulation normalizes without error, every final edge weight
lies in [0, 1], and some edge — the one carrying the maximal raw weight —
gets weight exactly 1. -/
theorem C4_normalization_bound_pos_weights (rs : List Response)
    (hw : ∀ q ∈ allContribs rs, 0 < q.2) (hne : rawConnections rs ≠ []) :
    ∃ m, analyze_sociometric_connections rs = some m ∧ m ≠ []
      ∧ (∀ q ∈ m, 0 ≤ q.2 ∧ q.2 ≤ 1) ∧ ∃ q ∈ m, q.2 = 1 := by
  have hpos : ∀ q ∈ rawConnections rs, 0 < q.2 :=
    foldl_addW_values_pos (allContribs rs) [] (by intro q hq; simp at hq) hw
  obtain ⟨hMmem, hMmax⟩ := maxVal_spec (rawConnections rs) hne
  have hMpos : 0 < maxVal (rawConnections rs) := by
    simp only [List.mem_map] at hMmem
    obtain ⟨q, hq, hq2⟩ := hMmem
    rw [← hq2]
    exact hpos q hq
  have hM0 : maxVal (rawConnections rs) ≠ 0 := ne_of_gt hMpos
  refine ⟨(rawConnections rs).map
      (fun p => (p.1, p.2 / maxVal (rawConnections rs))), ?_, ?_, ?_, ?_⟩
  · unfold analyze_sociometric_connections
    rw [if_neg hne, if_neg hM0]
  · simp [hne]
  · intro q hq
    simp only [List.mem_map] at hq
    obtain ⟨q0, hq0, rfl⟩ := hq
    constructor
    · exact le_of_lt (div_pos (hpos q0 hq0) hMpos)
    · exact div_le_one_of_le₀ (hMmax q0.2 (List.mem_map_of_mem _ hq0)) (le_of_lt hMpos)
  · simp only [List.mem_map] at hMmem
    obtain ⟨q, hq, hq2⟩ := hMmem
    refine ⟨(q.1, q.2 / maxVal (rawConnections rs)), List.mem_map_of_mem _ hq, ?_⟩
    simp [hq2, div_self hM0]

/-- Witness for C4 on the spec scenario responses (all weights positive). -/
theorem C4_witness :
    (∀ q ∈ allContribs [respA, respB], 0 < q.2) ∧ rawConnections [respA, respB] ≠ []
    ∧ ∃ m, analyze_sociometric_connections [respA, respB] = some m ∧ m ≠ []
        ∧ (∀ q ∈ m, 0 ≤ q.2 ∧ q.2 ≤ 1) ∧ ∃ q ∈ m, q.2 = 1 :=
  ⟨by decide, by decide,
    C4_normalization_bound_pos_weights [respA, respB] (by decide) (by decide)⟩

/-! Order-invariance of the accumulation (claim C6). -/

theorem wsum_cons (q : Pair × ℚ) (t : List (Pair × ℚ)) (k : Pair) :
    wsum (q :: t) k = (if q.1 = k then q.2 else 0) + wsum t k := by
  unfold wsum
  by_cases h : q.1 = k <;> simp [List.filter_cons, h]

theorem lookupKey_foldl_addW_getD (l : List (Pair × ℚ)) (m0 : AList Pair ℚ) (k : Pair) :
    (lookupKey (l.foldl (fun m p => addW m p.1 p.2) m0) k).getD 0 =
      (lookupKey m0 k).getD 0 + wsum l k := by
  induction l generalizing m0 with
  | nil => simp [wsum]
  | cons q t ih =>
      rw [List.foldl_cons, ih, lookupKey_addW, wsum_cons]
      by_cases h : q.1 = k
      · rw [if_pos h, if_pos h, h]
        simp only [Option.getD_some]
        ring
      · rw [if_neg h, if_neg h]
        ring

theorem rawConnections_lookup (rs : List Response) (k : Pair) :
    lookupKey (rawConnections rs) k =
      if k ∈ keysOf (allContribs rs) then some (wsum (allContribs rs) k) else none := by
  have h1 := lookupKey_foldl_addW_getD (allContribs rs) [] k
  have h3 := mem_keysOf_foldl_addW_iff (allContribs rs) [] k
  by_cases hm : k ∈ keysOf (allContribs rs)
  · rw [if_pos hm]
    have hs : (lookupKey (rawConnections rs) k).isSome := by
      rw [lookupKey_isSome_iff, rawConnections, h3]
      exact Or.inr hm
    cases ho : lookupKey (rawConnections rs) k with
    | none => rw [ho] at hs; simp at hs
    | some v =>
        rw [rawConnections] at ho
        rw [ho] at h1
        simp only [Option.getD_some, lookupKey] at h1
        rw [h1]
        simp
  · rw [if_neg hm]
    cases ho : lookupKey (rawConnections rs) k with
    | none => rfl
    | some v =>
        exfalso
        have hs : (lookupKey (rawConnections rs) k).isSome := by rw [ho]; rfl
        rw [lookupKey_isSome_iff, rawConnections, h3] at hs
        rcases hs with hs | hs
        · simp [keysOf] at hs
        · exact hm hs

theorem wsum_perm {l1 l2 : List (Pair × ℚ)} (h : l1.Perm l2) (k : Pair) :
    wsum l1 k = wsum l2 k := by
  unfold wsum
  exact ((h.filter _).map _).sum_eq

theorem rawConnections_perm (rs1 rs2 : List Response) (h : rs1.Perm rs2) (k : Pair) :
    lookupKey (rawConnections rs1) k = lookupKey (rawConnections rs2) k := by
  have hc : (allContribs rs1).Perm (allContribs rs2) :=
    List.Perm.flatMap_right contribsOfResponse h
  by_cases hm : k ∈ keysOf (allContribs rs1)
  · have hm2 : k ∈ keysOf (allContribs rs2) := ((hc.map (·.1)).mem_iff).1 hm
    rw [rawConnections_lookup, rawConnections_lookup, if_pos hm, if_pos hm2, wsum_perm hc]
  · have hm2 : ¬ k ∈ keysOf (allContribs rs2) := fun hh => hm (((hc.map (·.1)).mem_iff).2 hh)
    rw [rawConnections_lookup, rawConnections_lookup, if_neg hm, if_neg hm2]

theorem addW_ne_nil {α : Type} [DecidableEq α] (m : AList α ℚ) (k : α) (w : ℚ) :
    addW m k w ≠ [] := by
  cases m with
  | nil => simp [addW]
  | cons p t =>
      obtain ⟨k0, v0⟩ := p
      by_cases h : k0 = k <;> simp [addW, h]

theorem foldl_addW_ne_nil_of_ne (l : List (Pair × ℚ)) (m0 : AList Pair ℚ) (h : m0 ≠ []) :
    l.foldl (fun m p => addW m p.1 p.2) m0 ≠ [] := by
  induction l generalizing m0 with
  | nil => exact h
  | cons q t ih =>
      rw [List.foldl_cons]
      exact ih (addW m0 q.1 q.2) (addW_ne_nil m0 q.1 q.2)

theorem rawConnections_eq_nil_iff (rs : List Response) :
    rawConnections rs = [] ↔ allContribs rs = [] := by
  unfold rawConnections
  cases hl : allContribs rs with
  | nil => simp
  | cons q t =>
      simp only [List.foldl_cons]
      constructor
      · intro hcontra
        exact absurd hcontra
          (foldl_addW_ne_nil_of_ne t (addW [] q.1 q.2) (addW_ne_nil [] q.1 q.2))
      · intro hcontra
        cases hcontra
  -- the cons branch of the iff is vacuous on the right

theorem keysOf_addW_nodup {α : Type} [DecidableEq α] (m : AList α ℚ) (k : α) (w : ℚ)
    (h : (keysOf m).Nodup) : (keysOf (addW m k w)).Nodup := by
  induction m with
  | nil => simp [addW, keysOf]
  | cons p t ih =>
      obtain ⟨k0, v0⟩ := p
      simp only [keysOf, List.map_cons, List.nodup_cons] at h
      by_cases he : k0 = k
      · simp only [addW, if_pos he, keysOf, List.map_cons, List.nodup_cons]
        exact h
      · simp only [addW, if_neg he, keysOf, List.map_cons, List.nodup_cons]
        constructor
        · intro hcontra
          have := (mem_keysOf_addW_iff t k k0 w).1 hcontra
          rcases this with h2 | h2
          · exact h.1 h2
          · exact he h2
        · exact ih h.2

theorem keysOf_rawConnections_nodup (rs : List Response) :
    (keysOf (rawConnections rs)).Nodup := by
  rw [rawConnections]
  generalize allContribs rs = l
  have base : (keysOf ([] : AList Pair ℚ)).Nodup := by simp [keysOf]
  revert base
  generalize ([] : AList Pair ℚ) = m0
  induction l generalizing m0 with
  | nil => exact fun h => h
  | cons q t ih =>
      intro h
      rw [List.foldl_cons]
      exact ih (addW m0 q.1 q.2) (keysOf_addW_nodup m0 q.1 q.2 h)

theorem mem_iff_lookupKey {α β : Type} [DecidableEq α] (m : AList α β)
    (hnd : (keysOf m).Nodup) (k : α) (v : β) : (k, v) ∈ m ↔ lookupKey m k = some v := by
  induction m with
  | nil => simp [lookupKey]
  | cons p t ih =>
      obtain ⟨k0, v0⟩ := p
      simp only [keysOf, List.map_cons, List.nodup_cons] at hnd
      by_cases h : k0 = k
      · subst h
        rw [show lookupKey ((k0, v0) :: t) k0 = some v0 by simp [lookupKey]]
        simp only [List.mem_cons, Option.some.injEq]
        constructor
        · rintro (he | hmem)
          · exact (Prod.ext_iff.1 he).2.symm
          · exact absurd (List.mem_map_of_mem (·.1) hmem) hnd.1
        · intro he
          exact Or.inl (by rw [he])
      · rw [show lookupKey ((k0, v0) :: t) k = lookupKey t k by simp [lookupKey, h]]
        rw [← ih hnd.2]
        simp only [List.mem_cons]
        constructor
        · rintro (he | hmem)
          · exact absurd (Prod.ext_iff.1 he).1.symm h
          · exact hmem
        · exact Or.inr

theorem alist_perm_of_lookup_eq {α β : Type} [DecidableEq α] (m1 m2 : AList α β)
    (h1 : (keysOf m1).Nodup) (h2 : (keysOf m2).Nodup)
    (h : ∀ k, lookupKey m1 k = lookupKey m2 k) : m1.Perm m2 := by
  have hd1 : m1.Nodup := h1.of_map
  have hd2 : m2.Nodup := h2.of_map
  refine (List.perm_ext_iff_of_nodup hd1 hd2).2 ?_
  rintro ⟨k, v⟩
  rw [mem_iff_lookupKey m1 h1, mem_iff_lookupKey m2 h2, h k]

theorem maxVal_perm {m1 m2 : AList Pair ℚ} (h : m1.Perm m2) : maxVal m1 = maxVal m2 := by
  cases m1 with
  | nil =>
      have h2 : m2 = [] := h.symm.eq_nil
      rw [h2]
  | cons p t =>
      have hne1 : p :: t ≠ [] := List.cons_ne_nil _ _
      have hne2 : m2 ≠ [] := by
        intro he
        rw [he] at h
        exact hne1 h.eq_nil
      obtain ⟨hmem1, hmax1⟩ := maxVal_spec (p :: t) hne1
      obtain ⟨hmem2, hmax2⟩ := maxVal_spec m2 hne2
      have hvals := h.map (·.2)
      exact le_antisymm (hmax2 _ (hvals.mem_iff.1 hmem1)) (hmax1 _ (hvals.mem_iff.2 hmem2))

/-- C6: reordering the response list changes neither which unordered pairs
appear nor their raw accumulated weights nor the final normalized weights
(exact arithmetic); the normalization even fails (max weight zero) on one
order exactly when it fails on the other. -/
theorem C6_response_order_invariance (rs1 rs2 : List Response) (h : rs1.Perm rs2) :
    (∀ k : Pair, lookupKey (rawConnections rs1) k = lookupKey (rawConnections rs2) k)
    ∧ (analyze_sociometric_connections rs1 = none ↔ analyze_sociometric_connections rs2 = none)
    ∧ (∀ k : Pair, optLookup (analyze_sociometric_connections rs1) k =
        optLookup (analyze_sociometric_connections rs2) k) := by
  have hc : (allContribs rs1).Perm (allContribs rs2) :=
    List.Perm.flatMap_right contribsOfResponse h
  have hraw := rawConnections_perm rs1 rs2 h
  have hnil : rawConnections rs1 = [] ↔ rawConnections rs2 = [] := by
    rw [rawConnections_eq_nil_iff, rawConnections_eq_nil_iff]
    constructor
    · intro he
      rw [he] at hc
      exact hc.symm.eq_nil
    · intro he
      rw [he] at hc
      exact hc.eq_nil
  have hperm_raw : (rawConnections rs1).Perm (rawConnections rs2) :=
    alist_perm_of_lookup_eq _ _ (keysOf_rawConnections_nodup rs1)
      (keysOf_rawConnections_nodup rs2) hraw
  have hmax : maxVal (rawConnections rs1) = maxVal (rawConnections rs2) := maxVal_perm hperm_raw
  refine ⟨hraw, ?_, ?_⟩
  · simp only [analyze_sociometric_connections]
    by_cases h1 : rawConnections rs1 = []
    · rw [if_pos h1, if_pos (hnil.1 h1)]
    · rw [if_neg h1, if_neg (fun e => h1 (hnil.2 e)), hmax]
      by_cases hM : maxVal (rawConnections rs2) = 0
      · rw [if_pos hM, if_pos hM]
      · rw [if_neg hM, if_neg hM]
        exact iff_of_false (fun hh => Option.noConfusion hh) (fun hh => Option.noConfusion hh)
  · intro k
    simp only [analyze_sociometric_connections, optLookup]
    by_cases h1 : rawConnections rs1 = []
    · rw [if_pos h1, if_pos (hnil.1 h1)]
    · rw [if_neg h1, if_neg (fun e => h1 (hnil.2 e)), hmax]
      by_cases hM : maxVal (rawConnections rs2) = 0
      · rw [if_pos hM, if_pos hM]
      · rw [if_neg hM, if_neg hM]
        simp only [Option.some_bind]
        rw [lookupKey_map_snd (rawConnections rs1) (fun x => x / maxVal (rawConnections rs2)) k,
          lookupKey_map_snd (rawConnections rs2) (fun x => x / maxVal (rawConnections rs2)) k,
          hraw k]

/-- Witness for C6 at a concrete transposition of two responses. -/
theorem C6_witness :
    ([respA, respB] : List Response).Perm [respB, respA]
    ∧ optLookup (analyze_sociometric_connections [respA, respB]) ("1", "2") =
        optLookup (analyze_sociometric_connections [respB, respA]) ("1", "2") :=
  ⟨by decide, (C6_response_order_invariance [respA, respB] [respB, respA] (by decide)).2.2
    ("1", "2")⟩

/-! Endpoint-counting lemmas for `_identify_isolated_members` (claim C9). -/

theorem endpointDegree_cons (l : LinkOut) (ls : List LinkOut) (k : String) :
    endpointDegree (l :: ls) k =
      ((if l.source = k then 1 else 0) + (if l.target = k then 1 else 0))
        + endpointDegree ls k := by
  unfold endpointDegree
  by_cases h1 : l.source = k <;> by_cases h2 : l.target = k <;>
    simp [List.filter_cons, h1, h2] <;> omega

theorem bumpCount_spec {m : AList String Nat} {k : String} (h : k ∈ keysOf m) :
    ∃ m2, bumpCount m k = some m2 ∧ keysOf m2 = keysOf m ∧
      ∀ k2, lookupKey m2 k2 =
        if k2 = k then (lookupKey m k2).map (· + 1) else lookupKey m k2 := by
  induction m with
  | nil => simp [keysOf] at h
  | cons p t ih =>
      obtain ⟨k0, v⟩ := p
      by_cases he : k0 = k
      · subst he
        refine ⟨(k0, v + 1) :: t, by simp [bumpCount], by simp [keysOf], ?_⟩
        intro k2
        by_cases h2 : k2 = k0
        · subst h2
          simp [lookupKey]
        · have h2s : ¬ k0 = k2 := fun e => h2 e.symm
          simp [lookupKey, h2, h2s]
      · have hk : k ∈ keysOf t := by
          simp only [keysOf, List.map_cons, List.mem_cons] at h
          exact h.resolve_left (fun e => he e.symm)
        obtain ⟨t2, hb, hkeys, hl⟩ := ih hk
        have hkg : keysOf ((k0, v) :: t2) = keysOf ((k0, v) :: t) := by
          simp only [keysOf, List.map_cons]
          rw [show List.map (fun x => x.1) t2 = List.map (fun x => x.1) t from hkeys]
        refine ⟨(k0, v) :: t2, by simp [bumpCount, he, hb], hkg, ?_⟩
        intro k2
        by_cases h2 : k0 = k2
        · subst h2
          rw [if_neg he]
          simp [lookupKey]
        · rw [show lookupKey ((k0, v) :: t2) k2 = lookupKey t2 k2 by simp [lookupKey, h2]]
          rw [show lookupKey ((k0, v) :: t) k2 = lookupKey t k2 by simp [lookupKey, h2]]
          exact hl k2

theorem countLinks_spec (links : List LinkOut) (m : AList String Nat)
    (h : ∀ l ∈ links, l.source ∈ keysOf m ∧ l.target ∈ keysOf m) :
    ∃ m2, countLinks m links = some m2 ∧ keysOf m2 = keysOf m ∧
      ∀ k, lookupKey m2 k = (lookupKey m k).map (· + endpointDegree links k) := by
  induction links generalizing m with
  | nil =>
      refine ⟨m, rfl, rfl, ?_⟩
      intro k
      cases lookupKey m k <;> simp [endpointDegree]
  | cons l ls ih =>
      obtain ⟨hs, ht⟩ := h l (List.mem_cons_self _ _)
      obtain ⟨m1, hb1, hk1, hl1⟩ := bumpCount_spec hs
      have ht1 : l.target ∈ keysOf m1 := by rw [hk1]; exact ht
      obtain ⟨m2, hb2, hk2, hl2⟩ := bumpCount_spec ht1
      have hrest : ∀ l2 ∈ ls, l2.source ∈ keysOf m2 ∧ l2.target ∈ keysOf m2 := by
        rw [hk2, hk1]
        exact fun l2 hm => h l2 (List.mem_cons_of_mem _ hm)
      obtain ⟨mf, hcl, hkf, hlf⟩ := ih m2 hrest
      refine ⟨mf, ?_, by rw [hkf, hk2, hk1], ?_⟩
      · simp only [countLinks, hb1, hb2, hcl]
      · intro k
        rw [hlf k, hl2 k, hl1 k, endpointDegree_cons]
        have hs : (k = l.source) = (l.source = k) := propext ⟨Eq.symm, Eq.symm⟩
        have ht2 : (k = l.target) = (l.target = k) := propext ⟨Eq.symm, Eq.symm⟩
        simp only [hs, ht2]
        by_cases h1 : l.source = k <;> by_cases h2 : l.target = k <;>
          simp only [h1, h2, if_pos, if_neg, eq_self_iff_true, if_true, if_false,
            not_false_iff] <;>
          cases lookupKey m k <;> simp [h1, h2] <;> omega

theorem lookup_initial_counts (nodes : List NodeOut) (k : String)
    (h : k ∈ nodes.map (·.id)) :
    lookupKey (nodes.map (fun n => (n.id, (0 : Nat)))) k = some 0 := by
  induction nodes with
  | nil => simp at h
  | cons n t ih =>
      by_cases he : n.id = k
      · simp [lookupKey, he]
      · have hk : k ∈ t.map (·.id) := by
          simp only [List.map_cons, List.mem_cons] at h
          exact h.resolve_left (fun e => he e.symm)
        simp [lookupKey, he, ih hk]

/-- C9 (corrected, counterexample): two distinct nodes (ids 1 and 2) share
the display name "N"; node 2 has endpoint degree 2, yet its name appears in
`isolated_members` (contributed by degree-1 node 1), so "a node's name
appears iff that node's degree < 2" fails for node 2. -/
theorem C9_counterexample :
    identify_isolated_members [nIso1, nIso2, nIso3] [lnk12, lnk23] = some ["N", "M"]
    ∧ countLinks [("1", 0), ("2", 0), ("3", 0)] [lnk12, lnk23] =
        some [("1", 1), ("2", 2), ("3", 1)]
    ∧ nIso2.name = "N" ∧ ("N" ∈ ["N", "M"]) ∧ endpointDegree [lnk12, lnk23] nIso2.id = 2
    ∧ ¬ (2 < 2) := by decide

/-- C9 (amended): on any network whose link endpoints are node ids (as the
pipeline guarantees), `_identify_isolated_members` succeeds and a name
appears in its result iff SOME node carrying that name has endpoint degree
below two (equivalently, the per-node criterion whenever display names are
unique). -/
theorem C9_isolated_names_iff_low_degree (nodes : List NodeOut) (links : List LinkOut)
    (h : ∀ l ∈ links, l.source ∈ nodes.map (·.id) ∧ l.target ∈ nodes.map (·.id)) :
    ∃ res, identify_isolated_members nodes links = some res ∧
      ∀ name, (name ∈ res ↔ ∃ n ∈ nodes, n.name = name ∧ endpointDegree links n.id < 2) := by
  have hkeys : keysOf (nodes.map (fun n => (n.id, (0 : Nat)))) = nodes.map (·.id) := by
    simp [keysOf, List.map_map]
  have h2 : ∀ l ∈ links,
      l.source ∈ keysOf (nodes.map (fun n => (n.id, (0 : Nat))))
      ∧ l.target ∈ keysOf (nodes.map (fun n => (n.id, (0 : Nat)))) := by
    rw [hkeys]
    exact h
  obtain ⟨counts, hcl, hck, hcv⟩ := countLinks_spec links _ h2
  have hdeg : ∀ n ∈ nodes, (lookupKey counts n.id).getD 0 = endpointDegree links n.id := by
    intro n hn
    rw [hcv n.id, lookup_initial_counts nodes n.id (List.mem_map_of_mem _ hn)]
    simp
  refine ⟨(nodes.filter (fun n => (lookupKey counts n.id).getD 0 < 2)).map (·.name), ?_, ?_⟩
  · simp only [identify_isolated_members, hcl]
  intro name
  simp only [List.mem_map, List.mem_filter]
  constructor
  · rintro ⟨n, ⟨hn, hlt⟩, rfl⟩
    refine ⟨n, hn, rfl, ?_⟩
    rw [← hdeg n hn]
    exact of_decide_eq_true hlt
  · rintro ⟨n, hn, rfl, hlt⟩
    refine ⟨n, ⟨hn, ?_⟩, rfl⟩
    rw [decide_eq_true_eq, hdeg n hn]
    exact hlt

/-- Witness for C9 (amended) on a one-node, zero-link network. -/
theorem C9_witness :
    (∀ l ∈ ([] : List LinkOut), l.source ∈ [nIso1].map (·.id) ∧ l.target ∈ [nIso1].map (·.id))
    ∧ ∃ res, identify_isolated_members [nIso1] [] = some res ∧
        ∀ name, (name ∈ res ↔ ∃ n ∈ [nIso1], n.name = name ∧ endpointDegree [] n.id < 2) :=
  ⟨by decide, C9_isolated_names_iff_low_degree [nIso1] [] (by decide)⟩

/-! The degenerate-graph behaviour of the centrality stage (claim C1). -/

theorem evIter_succ (nodes : List String) (adj : String → List String) (fuel : Nat)
    (x : String → ℝ) :
    evIter nodes adj (fuel + 1) x =
      if ((nodes.map (fun v => |evNext nodes adj x v - x v|)).sum <
          (nodes.length : ℝ) * (1 / 1000000)) then
        some (nodes.map (fun v => (v, evNext nodes adj x v)))
      else evIter nodes adj fuel (evNext nodes adj x) := rfl

/-- C1 (code bug): the pipeline reaches the line-361 centrality calls with
degenerate graphs — here the single-respondent, nomination-free survey
yields the one-node, zero-edge graph — and there networkx
`eigenvector_centrality` returns 1.0 for the node (the power iteration on
any edgeless graph converges to the uniform positive vector), not the 0
the spec requires; on the zero-node graph it raises
(`NetworkXPointlessConcept`, modelled by `none`) instead of returning
zeroes. -/
theorem C1_degenerate_eigenvector_nonzero :
    (∀ lib : GraphLib,
      (generate_network_visualization lib [uSingle] [respScalar] (1/10)).map
        (fun nv => (nv.nodes.map (·.id), nv.links)) = some (["1"], []))
    ∧ eigenvector_centrality ["1"] (adjOfEdges []) 1000 = some [("1", (1 : ℝ))]
    ∧ (1 : ℝ) ≠ 0
    ∧ eigenvector_centrality [] (adjOfEdges []) 1000 = none := by
  refine ⟨fun lib => rfl, ?_, one_ne_zero, by simp [eigenvector_centrality]⟩
  have hne : ¬ (["1"] : List String) = [] := by simp
  have hnext : evNext ["1"] (adjOfEdges []) (fun _ => (1 : ℝ)) = fun _ => (1 : ℝ) := by
    funext v
    simp [evNext, adjOfEdges, l2norm]
  have hcond :
      (((["1"] : List String).map
          (fun v => |evNext ["1"] (adjOfEdges []) (fun _ => (1 : ℝ)) v - (1 : ℝ)|)).sum <
        ((["1"] : List String).length : ℝ) * (1 / 1000000)) := by
    rw [hnext]
    norm_num
  have hrun : evIter ["1"] (adjOfEdges []) (999 + 1) (fun _ => (1 : ℝ)) = some [("1", 1)] := by
    rw [evIter_succ, if_pos hcond, hnext]
    simp
  have hx0 : (fun _ : String => 1 / (((["1"] : List String).length : ℕ) : ℝ)) =
      fun _ => (1 : ℝ) := by
    funext v
    norm_num
  simp only [eigenvector_centrality, if_neg hne]
  rw [show (1000 : Nat) = 999 + 1 from rfl, hx0]
  exact hrun

end Kookooha
